import Mathlib

/-!
Verification of the subscription registry and request handlers of the
bullfund-ibkr gateway (src/routers/market_data.py and src/routers/trading.py),
as a shallow embedding in Lean.

Python floats are modelled as an inductive with explicit NaN and infinities;
the module-level dict `active_subscriptions : Dict[str, Set[WebSocket]]` is an
association list from symbol to a duplicate-free list of sinks; the broker
session (`ib`) is modelled by the set of symbols with an active market-data
feed plus logs of the `reqMktData` / `cancelMktData` calls issued to it.
-/

namespace BullFund

/-! ## Python float / None values, `clean_float` (market_data.py lines 83-92) -/

/-- A Python float as seen by `math.isnan` / `math.isinf`. -/
inductive PyFloat where
  | nan
  | inf
  | ninf
  | finite (q : ℚ)
deriving DecidableEq

/-- A Python value reaching `clean_float`: `None`, a float, or a value on which
`math.isnan` raises `TypeError`/`ValueError` (e.g. a string). -/
inductive PyVal where
  | noneV
  | num (f : PyFloat)
  | raising
deriving DecidableEq

/-- Function `clean_float` (market_data.py lines 83-92): `None` stays `None`; NaN and
±inf become `None`; a value on which the finiteness checks raise becomes
`None`; any other float is returned unchanged. -/
def clean_float : PyVal → Option PyFloat
  | .noneV => none
  | .num .nan => none
  | .num .inf => none
  | .num .ninf => none
  | .num (.finite q) => some (.finite q)
  | .raising => none

/-- The fields of an ib_async `Ticker` read by `get_market_data`
(market_data.py lines 243-257). -/
structure TickerSnapshot where
  bid : PyVal
  ask : PyVal
  last : PyVal
  bidSize : PyVal
  askSize : PyVal
  lastSize : PyVal
  volume : PyVal
  high : PyVal
  low : PyVal
  close : PyVal
  open_ : PyVal
  halted : PyVal
deriving DecidableEq

/-- The JSON body built by `get_market_data` (market_data.py lines 243-257):
`open` is spelled `open_` because `open` is reserved in Lean. -/
structure MarketDataResponse where
  symbol : String
  bid : Option PyFloat
  ask : Option PyFloat
  last : Option PyFloat
  bid_size : Option PyFloat
  ask_size : Option PyFloat
  last_size : Option PyFloat
  volume : Option PyFloat
  high : Option PyFloat
  low : Option PyFloat
  close : Option PyFloat
  open_ : Option PyFloat
  halted : Option PyFloat
deriving DecidableEq

/-- The `result` dict of `get_market_data`: every numeric field goes through
`clean_float` (market_data.py lines 243-257). -/
def mkMarketDataResponse (symbol : String) (t : TickerSnapshot) : MarketDataResponse :=
  { symbol := symbol
    bid := clean_float t.bid
    ask := clean_float t.ask
    last := clean_float t.last
    bid_size := clean_float t.bidSize
    ask_size := clean_float t.askSize
    last_size := clean_float t.lastSize
    volume := clean_float t.volume
    high := clean_float t.high
    low := clean_float t.low
    close := clean_float t.close
    open_ := clean_float t.open_
    halted := clean_float t.halted }

/-- A serialized numeric field is `null` or a finite number. -/
def IsNullOrFinite (v : Option PyFloat) : Prop :=
  v = none ∨ ∃ q : ℚ, v = some (.finite q)

/-! ## The subscription registry (market_data.py lines 80, 388-452)

`active_subscriptions : Dict[str, Set[WebSocket]]` is the per-symbol sink set;
sinks are identified by a natural number standing for the websocket object.
-/

abbrev Key := String

abbrev Sink := Nat

/-- The dict `active_subscriptions`, as an association list keyed by symbol. -/
abbrev Registry := List (Key × List Sink)

/-- Dict lookup (first entry with the key). -/
def lookupKey : Registry → Key → Option (List Sink)
  | [], _ => none
  | (k', ss) :: rest, k => if k' = k then some ss else lookupKey rest k

/-- Sink set of `k`, the empty list when the key is absent. -/
def regSinks (r : Registry) (k : Key) : List Sink :=
  (lookupKey r k).getD []

/-- Dict assignment `r[k] = ss`: replace the first entry or append a new one. -/
def setKey : Registry → Key → List Sink → Registry
  | [], k, ss => [(k, ss)]
  | (k', ss') :: rest, k, ss =>
    if k' = k then (k, ss) :: rest else (k', ss') :: setKey rest k ss

/-- Dict deletion `del r[k]`: drop the first entry with key `k`. -/
def eraseKey : Registry → Key → Registry
  | [], _ => []
  | (k', ss') :: rest, k => if k' = k then rest else (k', ss') :: eraseKey rest k

/-- Python `set.add`: no-op when the element is present. -/
def setAdd (l : List Sink) (s : Sink) : List Sink :=
  if s ∈ l then l else l ++ [s]

/-- Python `set.discard`: remove the element, a no-op when absent. -/
def setDiscard (l : List Sink) (s : Sink) : List Sink :=
  l.filter (fun x => x != s)

/-- The whole streaming state: the registry, the `on_update` handlers attached
to ticker `updateEvent`s (one per live connection, keyed by symbol), the set of
symbols with an active broker market-data feed, and the logs of `reqMktData`
and `cancelMktData` calls issued to the broker session. -/
structure SysState where
  reg : Registry
  handlers : List (Key × Sink)
  upstream : List Key
  subCalls : List Key
  cancelCalls : List Key
deriving DecidableEq

/-- No websocket connected yet: everything empty. -/
def initState : SysState :=
  { reg := [], handlers := [], upstream := [], subCalls := [], cancelCalls := [] }

/-- Set insertion for the active-feed set. -/
def upAdd (l : List Key) (k : Key) : List Key :=
  if k ∈ l then l else l ++ [k]

/-- Set removal for the active-feed set. -/
def upRemove (l : List Key) (k : Key) : List Key :=
  l.filter (fun x => x != k)

/-- A new websocket connection for `symbol` (market_data.py lines 393-431).
When qualification fails (`accepted = false`) the handler sends an error and
closes without touching any shared state (lines 398-402).  When it succeeds,
the handler calls `ib.reqMktData` (line 405; at the broker this activates the
symbol's feed, idempotently for a contract already streaming, and is logged as
one upstream request), adds the websocket to `active_subscriptions[symbol]`
(lines 408-410) and attaches `on_update` to the ticker (line 431). -/
def connectStep (st : SysState) (k : Key) (s : Sink) (accepted : Bool) : SysState :=
  if accepted then
    { reg := setKey st.reg k (setAdd (regSinks st.reg k) s)
      handlers := st.handlers ++ [(k, s)]
      upstream := upAdd st.upstream k
      subCalls := st.subCalls ++ [k]
      cancelCalls := st.cancelCalls }
  else st

/-- The response sent before closing when qualification fails
(market_data.py lines 399-402). -/
def connectOutcome (accepted : Bool) : Option String :=
  if accepted then none else some "Contract not found"

/-- Connection teardown (market_data.py lines 439-446): detach `on_update`,
then `discard` the websocket from `active_subscriptions[symbol]` if the key is
present, and when its set becomes empty delete the key and call
`ib.cancelMktData`. -/
def disconnectStep (st : SysState) (k : Key) (s : Sink) : SysState :=
  match lookupKey st.reg k with
  | none => { st with handlers := st.handlers.filter (fun p => p != (k, s)) }
  | some ss =>
    if setDiscard ss s = [] then
      { reg := eraseKey st.reg k
        handlers := st.handlers.filter (fun p => p != (k, s))
        upstream := upRemove st.upstream k
        subCalls := st.subCalls
        cancelCalls := st.cancelCalls ++ [k] }
    else
      { st with reg := setKey st.reg k (setDiscard ss s)
                handlers := st.handlers.filter (fun p => p != (k, s)) }

/-- One lifecycle event of a streaming connection. -/
inductive Event where
  | connect (k : Key) (s : Sink) (accepted : Bool)
  | disconnect (k : Key) (s : Sink)
deriving DecidableEq

/-- Effect of one event on the shared state. -/
def step (st : SysState) : Event → SysState
  | .connect k s a => connectStep st k s a
  | .disconnect k s => disconnectStep st k s

/-- Run a sequence of events from a given state. -/
def runFrom (st : SysState) : List Event → SysState
  | [] => st
  | e :: rest => runFrom (step st e) rest

/-- Run a sequence of events from the initial state. -/
def run (evs : List Event) : SysState :=
  runFrom initState evs

/-- Number of events that move `k`'s sink count from zero to non-zero. -/
def countZeroOne (st : SysState) : List Event → Key → Nat
  | [], _ => 0
  | e :: rest, k =>
    (if regSinks st.reg k = [] ∧ regSinks (step st e).reg k ≠ [] then 1 else 0)
      + countZeroOne (step st e) rest k

/-- Number of events that move `k`'s sink count from non-zero to zero. -/
def countOneZero (st : SysState) : List Event → Key → Nat
  | [], _ => 0
  | e :: rest, k =>
    (if regSinks st.reg k ≠ [] ∧ regSinks (step st e).reg k = [] then 1 else 0)
      + countOneZero (step st e) rest k

/-- Number of accepted connects for `k` in a trace (each one reaches
`ib.reqMktData` in the code). -/
def acceptedCount : List Event → Key → Nat
  | [], _ => 0
  | .connect k' _ a :: rest, k =>
    (if a = true ∧ k' = k then 1 else 0) + acceptedCount rest k
  | .disconnect _ _ :: rest, k => acceptedCount rest k

/-! ## Dispatch of an upstream update (market_data.py lines 414-431)

An ib_async ticker update for a symbol fires the `on_update` closure of every
connection whose handler is attached to that symbol's ticker.  Each closure
builds the same snapshot message and schedules `websocket.send_json` on the
event loop as an independent task, touching no shared state.
-/

/-- The fields of the ticker read inside `on_update` (lines 416-426). -/
structure StreamTicker where
  time : String
  bid : PyVal
  ask : PyVal
  last : PyVal
  volume : PyVal
  high : PyVal
  low : PyVal
  close : PyVal
deriving DecidableEq

/-- The JSON message built by `on_update` (market_data.py lines 416-426). -/
structure StreamMessage where
  symbol : String
  time : String
  bid : Option PyFloat
  ask : Option PyFloat
  last : Option PyFloat
  volume : Option PyFloat
  high : Option PyFloat
  low : Option PyFloat
  close : Option PyFloat
deriving DecidableEq

/-- The `data` dict sent to every sink of a symbol on a ticker update. -/
def mkStreamMessage (symbol : String) (t : StreamTicker) : StreamMessage :=
  { symbol := symbol
    time := t.time
    bid := clean_float t.bid
    ask := clean_float t.ask
    last := clean_float t.last
    volume := clean_float t.volume
    high := clean_float t.high
    low := clean_float t.low
    close := clean_float t.close }

/-- The sinks whose `on_update` handler fires for an update of `k`. -/
def dispatchTargets (st : SysState) (k : Key) : List Sink :=
  (st.handlers.filter (fun p => p.1 == k)).map Prod.snd

/-- Deliveries performed when the ticker of `k` fires `updateEvent`: every
attached handler sends the same snapshot message to its own websocket. -/
def dispatch (st : SysState) (k : Key) (t : StreamTicker) : List (Sink × StreamMessage) :=
  (dispatchTargets st k).map (fun s => (s, mkStreamMessage k t))

/-- Outcome of one scheduled `websocket.send_json` task. -/
inductive DeliveryResult where
  | delivered
  | failed
deriving DecidableEq

/-- Dispatch with delivery outcomes: `on_update` only schedules each send as
its own task (line 428), so a send that later fails (socket closed) changes no
shared state and does not stop the other sends; `fails` is the set of sinks
whose scheduled send fails.  Returns the state after the dispatch and the
outcome of each scheduled send. -/
def dispatchWithFailures (st : SysState) (k : Key) (fails : List Sink) :
    SysState × List (Sink × DeliveryResult) :=
  (st, (dispatchTargets st k).map
    (fun s => (s, if s ∈ fails then DeliveryResult.failed else DeliveryResult.delivered)))

/-! ## Request handlers (market_data.py lines 95-178 and 268-325,
trading.py lines 197-223 and 247-262) -/

/-- An HTTPException raised by a handler. -/
structure HTTPError where
  status : Nat
  detail : String
deriving DecidableEq

/-- The slice of an ib_async contract the handlers inspect. -/
structure Contract where
  conId : Int
  symbol : String
deriving DecidableEq

/-- Result of an awaited broker pull bounded by `asyncio.wait_for`. -/
inductive BrokerPull (α : Type) where
  | completed (val : α)
  | timedOut
deriving DecidableEq

/-- The `timeout=30.0` argument of the historical-bars pull
(market_data.py line 143). -/
def historicalBarsTimeoutSeconds : ℚ := 30

/-- The `timeout=30.0` argument of the tick-data pull
(market_data.py line 294). -/
def tickDataTimeoutSeconds : ℚ := 30

/-- Status codes ignored by the historical-bars error handler
(market_data.py line 105). -/
def isIgnoredCode (c : Int) : Bool :=
  c ∈ ([2103, 2104, 2105, 2106, 2107, 2108, 2119, 2157, 2158] : List Int)

/-- Codes treated as actual errors (market_data.py line 113). -/
def isHardErrorCode (c : Int) : Bool :=
  1000 ≤ c || c ∈ ([162, 200, 366] : List Int)

/-- One `error_handler` invocation (market_data.py lines 101-116): status
codes are ignored, hard errors overwrite the recorded message. -/
def recordError (acc : Option String) (ev : Int × String) : Option String :=
  if isIgnoredCode ev.1 then acc
  else if isHardErrorCode ev.1 then some ("Error " ++ toString ev.1 ++ ": " ++ ev.2)
  else acc

/-- The `error_message` recorded after a stream of `errorEvent` callbacks
(`none` when `error_occurred` stayed false). -/
def captureErrors (evs : List (Int × String)) : Option String :=
  evs.foldl recordError none

/-- One historical bar as serialized by `get_historical_bars`
(market_data.py lines 160-170); `open` is spelled `open_`. -/
structure HistBar where
  date : String
  open_ : ℚ
  high : ℚ
  low : ℚ
  close : ℚ
  volume : ℚ
deriving DecidableEq

/-- Body of a successful `/historical-bars` response. -/
structure HistoricalBarsResponse where
  bars : List HistBar
  count : Nat
deriving DecidableEq

/-- Handler `get_historical_bars` (market_data.py lines 95-178) on a qualification
result, a broker pull outcome and the `errorEvent` callbacks seen while the
pull ran: contracts with `conId == 0` are filtered out and an empty remainder
is a 404; a timed-out pull is a 500 carrying the recorded error message when
one was captured and `"Request timed out"` otherwise; a completed pull with a
recorded error is also a 500; otherwise the bars are returned. -/
def get_historical_bars (qualified : List Contract) (pull : BrokerPull (List HistBar))
    (errorEvents : List (Int × String)) : Except HTTPError HistoricalBarsResponse :=
  match qualified.filter (fun c => c.conId != 0) with
  | [] => .error { status := 404, detail := "Contract not found" }
  | _ :: _ =>
    match pull with
    | .timedOut =>
      match captureErrors errorEvents with
      | some msg => .error { status := 500, detail := msg }
      | none => .error { status := 500, detail := "Request timed out" }
    | .completed bars =>
      match captureErrors errorEvents with
      | some msg => .error { status := 500, detail := msg }
      | none => .ok { bars := bars, count := bars.length }

/-- One historical tick as serialized by `get_tick_data`
(market_data.py lines 300-318); fields absent on the tick object are `none`. -/
structure TickRecord where
  time : String
  price : Option ℚ
  size : Option ℚ
  tickAttribLast : Option String
  exchange : Option String
  specialConditions : Option String
deriving DecidableEq

/-- Body of a successful `/tick-data` response. -/
structure TickDataResponse where
  ticks : List TickRecord
  count : Nat
deriving DecidableEq

/-- Handler `get_tick_data` (market_data.py lines 268-325): qualification failure is a
404 (no `conId` filter here); a timed-out pull returns an empty successful
response; a completed pull returns the ticks. -/
def get_tick_data (qualified : List Contract) (pull : BrokerPull (List TickRecord)) :
    Except HTTPError TickDataResponse :=
  match qualified with
  | [] => .error { status := 404, detail := "Contract not found" }
  | _ :: _ =>
    match pull with
    | .timedOut => .ok { ticks := [], count := 0 }
    | .completed ts => .ok { ticks := ts, count := ts.length }

/-- The slice of an ib_async `Trade` read by `place_order`
(trading.py lines 211-216). -/
structure TradeResult where
  orderId : Int
  status : String
  permId : Int
deriving DecidableEq

/-- Body of a successful `/orders/place` response. -/
structure PlaceOrderResponse where
  order_id : Int
  status : String
  perm_id : Int
deriving DecidableEq

/-- Handler `place_order` (trading.py lines 197-223) on a qualification result:
contracts with `conId == 0` are filtered out (line 207); if none remain the
handler raises a 404 and never calls `ib.placeOrder`; otherwise exactly one
order is submitted, on the first remaining contract (line 211).  The second
component is the list of contracts passed to `ib.placeOrder`. -/
def place_order (qualified : List Contract) (trade : TradeResult) :
    Except HTTPError PlaceOrderResponse × List Contract :=
  match qualified.filter (fun c => c.conId != 0) with
  | [] => (.error { status := 404, detail := "Contract not found" }, [])
  | c :: _ =>
    (.ok { order_id := trade.orderId, status := trade.status, perm_id := trade.permId }, [c])

/-- Body of a successful `/contract/qualify` response. -/
structure QualifiedContractsResponse where
  contracts : List Contract
  count : Nat
deriving DecidableEq

/-- Handler `qualify_contract` (trading.py lines 247-262): contracts with
`conId == 0` are filtered out (line 254); an empty remainder is a 404,
otherwise the remaining contracts are returned. -/
def qualify_contract (qualified : List Contract) :
    Except HTTPError QualifiedContractsResponse :=
  match qualified.filter (fun c => c.conId != 0) with
  | [] => .error { status := 404, detail := "Contract not found" }
  | c :: rest => .ok { contracts := c :: rest, count := (c :: rest).length }

/-! ## Basic lemmas about the registry primitives -/

lemma clean_float_nullOrFinite (v : PyVal) : IsNullOrFinite (clean_float v) := by
  cases v with
  | noneV => exact Or.inl rfl
  | raising => exact Or.inl rfl
  | num f =>
    cases f with
    | nan => exact Or.inl rfl
    | inf => exact Or.inl rfl
    | ninf => exact Or.inl rfl
    | finite q => exact Or.inr ⟨q, rfl⟩

lemma lookupKey_setKey_self (r : Registry) (k : Key) (ss : List Sink) :
    lookupKey (setKey r k ss) k = some ss := by
  induction r with
  | nil => simp [setKey, lookupKey]
  | cons p rest ih =>
    obtain ⟨a, b⟩ := p
    by_cases h : a = k
    · simp [setKey, h, lookupKey]
    · simp [setKey, h, lookupKey, ih]

lemma lookupKey_setKey_ne (r : Registry) (k k' : Key) (ss : List Sink) (h : k' ≠ k) :
    lookupKey (setKey r k ss) k' = lookupKey r k' := by
  have hkk : ¬ k = k' := fun he => h he.symm
  induction r with
  | nil => simp [setKey, lookupKey, hkk]
  | cons p rest ih =>
    obtain ⟨a, b⟩ := p
    by_cases hak : a = k
    · subst hak
      simp [setKey, lookupKey, hkk]
    · simp [setKey, hak, lookupKey, ih]

lemma lookupKey_eq_none_of_not_mem (r : Registry) (k : Key)
    (h : k ∉ r.map Prod.fst) : lookupKey r k = none := by
  induction r with
  | nil => simp [lookupKey]
  | cons p rest ih =>
    obtain ⟨a, b⟩ := p
    simp only [List.map_cons, List.mem_cons] at h
    push_neg at h
    have hak : ¬ a = k := fun he => h.1 he.symm
    simp [lookupKey, hak, ih h.2]

lemma lookupKey_eraseKey_self (r : Registry) (k : Key)
    (hnd : (r.map Prod.fst).Nodup) : lookupKey (eraseKey r k) k = none := by
  induction r with
  | nil => simp [eraseKey, lookupKey]
  | cons p rest ih =>
    obtain ⟨a, b⟩ := p
    simp only [List.map_cons, List.nodup_cons] at hnd
    by_cases h : a = k
    · subst h
      simpa [eraseKey] using lookupKey_eq_none_of_not_mem rest a hnd.1
    · simp [eraseKey, h, lookupKey, ih hnd.2]

lemma lookupKey_eraseKey_ne (r : Registry) (k k' : Key) (h : k' ≠ k) :
    lookupKey (eraseKey r k) k' = lookupKey r k' := by
  induction r with
  | nil => simp [eraseKey]
  | cons p rest ih =>
    obtain ⟨a, b⟩ := p
    by_cases hak : a = k
    · subst hak
      have hak' : ¬ a = k' := fun he => h he.symm
      simp [eraseKey, lookupKey, hak']
    · simp [eraseKey, hak, lookupKey, ih]

lemma mem_of_lookupKey (r : Registry) (k : Key) (ss : List Sink)
    (h : lookupKey r k = some ss) : (k, ss) ∈ r := by
  induction r with
  | nil => simp [lookupKey] at h
  | cons p rest ih =>
    obtain ⟨a, b⟩ := p
    by_cases hak : a = k
    · simp only [lookupKey, hak, if_true, eq_self_iff_true, Option.some_inj] at h
      subst hak
      subst h
      exact List.mem_cons_self _ _
    · simp only [lookupKey, if_neg hak] at h
      exact List.mem_cons_of_mem _ (ih h)

lemma mem_map_fst_of_lookupKey (r : Registry) (k : Key) (ss : List Sink)
    (h : lookupKey r k = some ss) : k ∈ r.map Prod.fst := by
  exact List.mem_map.mpr ⟨(k, ss), mem_of_lookupKey r k ss h, rfl⟩

lemma setKey_self_of_lookupKey (r : Registry) (k : Key) (ss : List Sink)
    (h : lookupKey r k = some ss) : setKey r k ss = r := by
  induction r with
  | nil => simp [lookupKey] at h
  | cons p rest ih =>
    obtain ⟨a, b⟩ := p
    by_cases hak : a = k
    · simp only [lookupKey, hak, if_true, eq_self_iff_true, Option.some_inj] at h
      subst hak
      subst h
      simp [setKey]
    · simp only [lookupKey, if_neg hak] at h
      simp [setKey, hak, ih h]

lemma mem_setKey (r : Registry) (k : Key) (ss : List Sink) (p : Key × List Sink)
    (hp : p ∈ setKey r k ss) : p = (k, ss) ∨ p ∈ r := by
  induction r with
  | nil => simpa [setKey] using hp
  | cons q rest ih =>
    obtain ⟨a, b⟩ := q
    by_cases hak : a = k
    · simp only [setKey, if_pos hak, List.mem_cons] at hp
      rcases hp with h | h
      · exact Or.inl h
      · exact Or.inr (List.mem_cons_of_mem _ h)
    · simp only [setKey, if_neg hak, List.mem_cons] at hp
      rcases hp with h | h
      · exact Or.inr (h ▸ List.mem_cons_self _ _)
      · rcases ih h with h' | h'
        · exact Or.inl h'
        · exact Or.inr (List.mem_cons_of_mem _ h')

lemma map_fst_setKey (r : Registry) (k : Key) (ss : List Sink) :
    (setKey r k ss).map Prod.fst =
      if k ∈ r.map Prod.fst then r.map Prod.fst else r.map Prod.fst ++ [k] := by
  induction r with
  | nil => simp [setKey]
  | cons p rest ih =>
    obtain ⟨a, b⟩ := p
    by_cases hak : a = k
    · subst hak
      simp [setKey]
    · have hka : ¬ k = a := fun he => hak he.symm
      by_cases hk : k ∈ rest.map Prod.fst <;>
        simp [setKey, hak, ih, hk, hka]

lemma eraseKey_sublist (r : Registry) (k : Key) : (eraseKey r k).Sublist r := by
  induction r with
  | nil => simp [eraseKey]
  | cons p rest ih =>
    obtain ⟨a, b⟩ := p
    by_cases hak : a = k
    · simp only [eraseKey, if_pos hak]
      exact List.sublist_cons_self _ _
    · simpa [eraseKey, hak] using ih.cons₂ (a, b)

lemma regSinks_eq_of_lookupKey (r : Registry) (k : Key) (ss : List Sink)
    (h : lookupKey r k = some ss) : regSinks r k = ss := by
  simp [regSinks, h]

lemma regSinks_eq_nil_of_lookupKey_none (r : Registry) (k : Key)
    (h : lookupKey r k = none) : regSinks r k = [] := by
  simp [regSinks, h]

lemma regSinks_setKey_self (r : Registry) (k : Key) (ss : List Sink) :
    regSinks (setKey r k ss) k = ss := by
  simp [regSinks, lookupKey_setKey_self]

lemma regSinks_setKey_ne (r : Registry) (k k' : Key) (ss : List Sink) (h : k' ≠ k) :
    regSinks (setKey r k ss) k' = regSinks r k' := by
  simp [regSinks, lookupKey_setKey_ne r k k' ss h]

lemma regSinks_eraseKey_self (r : Registry) (k : Key)
    (hnd : (r.map Prod.fst).Nodup) : regSinks (eraseKey r k) k = [] := by
  simp [regSinks, lookupKey_eraseKey_self r k hnd]

lemma regSinks_eraseKey_ne (r : Registry) (k k' : Key) (h : k' ≠ k) :
    regSinks (eraseKey r k) k' = regSinks r k' := by
  simp [regSinks, lookupKey_eraseKey_ne r k k' h]

lemma mem_setAdd (l : List Sink) (s x : Sink) :
    x ∈ setAdd l s ↔ x ∈ l ∨ x = s := by
  by_cases h : s ∈ l
  · simp only [setAdd, if_pos h]
    exact ⟨Or.inl, fun hx => hx.elim id (fun he => he ▸ h)⟩
  · simp [setAdd, if_neg h]

lemma setAdd_ne_nil (l : List Sink) (s : Sink) : setAdd l s ≠ [] := by
  by_cases h : s ∈ l
  · simp only [setAdd, if_pos h]
    exact List.ne_nil_of_mem h
  · simp [setAdd, if_neg h]

lemma mem_setDiscard (l : List Sink) (s x : Sink) :
    x ∈ setDiscard l s ↔ x ∈ l ∧ x ≠ s := by
  simp [setDiscard, List.mem_filter]

lemma setDiscard_of_not_mem (l : List Sink) (s : Sink) (h : s ∉ l) :
    setDiscard l s = l := by
  refine List.filter_eq_self.mpr (fun x hx => ?_)
  simp only [bne_iff_ne, ne_eq, decide_not]
  intro he
  exact h (he ▸ hx)

lemma eq_of_mem_of_setDiscard_nil (l : List Sink) (s x : Sink)
    (h : setDiscard l s = []) (hx : x ∈ l) : x = s := by
  by_contra hne
  have : x ∈ setDiscard l s := (mem_setDiscard l s x).mpr ⟨hx, hne⟩
  simp [h] at this

lemma mem_upAdd (l : List Key) (k x : Key) :
    x ∈ upAdd l k ↔ x ∈ l ∨ x = k := by
  by_cases h : k ∈ l
  · simp only [upAdd, if_pos h]
    exact ⟨Or.inl, fun hx => hx.elim id (fun he => he ▸ h)⟩
  · simp [upAdd, if_neg h]

lemma mem_upRemove (l : List Key) (k x : Key) :
    x ∈ upRemove l k ↔ x ∈ l ∧ x ≠ k := by
  simp [upRemove, List.mem_filter]

lemma mem_handlersFilter (l : List (Key × Sink)) (k : Key) (s : Sink)
    (k1 : Key) (s1 : Sink) :
    (k1, s1) ∈ l.filter (fun p => p != (k, s)) ↔
      (k1, s1) ∈ l ∧ (k1, s1) ≠ (k, s) := by
  simp [List.mem_filter]

/-! ## Shapes of the two transition functions -/

lemma connectStep_false (st : SysState) (k : Key) (s : Sink) :
    connectStep st k s false = st := rfl

lemma connectStep_true (st : SysState) (k : Key) (s : Sink) :
    connectStep st k s true =
      { reg := setKey st.reg k (setAdd (regSinks st.reg k) s)
        handlers := st.handlers ++ [(k, s)]
        upstream := upAdd st.upstream k
        subCalls := st.subCalls ++ [k]
        cancelCalls := st.cancelCalls } := rfl

lemma disconnectStep_none (st : SysState) (k : Key) (s : Sink)
    (h : lookupKey st.reg k = none) :
    disconnectStep st k s =
      { st with handlers := st.handlers.filter (fun p => p != (k, s)) } := by
  unfold disconnectStep
  rw [h]

lemma disconnectStep_last (st : SysState) (k : Key) (s : Sink) (ss : List Sink)
    (h : lookupKey st.reg k = some ss) (h2 : setDiscard ss s = []) :
    disconnectStep st k s =
      { reg := eraseKey st.reg k
        handlers := st.handlers.filter (fun p => p != (k, s))
        upstream := upRemove st.upstream k
        subCalls := st.subCalls
        cancelCalls := st.cancelCalls ++ [k] } := by
  unfold disconnectStep
  rw [h]
  simp [h2]

lemma disconnectStep_keep (st : SysState) (k : Key) (s : Sink) (ss : List Sink)
    (h : lookupKey st.reg k = some ss) (h2 : setDiscard ss s ≠ []) :
    disconnectStep st k s =
      { st with reg := setKey st.reg k (setDiscard ss s)
                handlers := st.handlers.filter (fun p => p != (k, s)) } := by
  unfold disconnectStep
  rw [h]
  simp [h2]

/-! ## The registry invariants -/

/-- Keys of `active_subscriptions` are unique and every stored sink set is
non-empty (the code deletes a key as soon as its set empties). -/
def GoodState (st : SysState) : Prop :=
  (∀ p ∈ st.reg, p.2 ≠ []) ∧ (st.reg.map Prod.fst).Nodup

/-- A symbol's feed is active at the broker iff its sink set is non-empty. -/
def UpInv (st : SysState) : Prop :=
  ∀ k, k ∈ st.upstream ↔ regSinks st.reg k ≠ []

/-- A connection's `on_update` handler is attached to a symbol's ticker iff
its websocket is registered under that symbol. -/
def HandlerInv (st : SysState) : Prop :=
  ∀ k s, (k, s) ∈ st.handlers ↔ s ∈ regSinks st.reg k

/-- All the registry invariants together. -/
def Inv (st : SysState) : Prop := GoodState st ∧ UpInv st ∧ HandlerInv st

lemma goodState_connectStep (st : SysState) (k : Key) (s : Sink) (a : Bool)
    (h : GoodState st) : GoodState (connectStep st k s a) := by
  cases a with
  | false => simpa [connectStep_false] using h
  | true =>
    obtain ⟨hval, hnd⟩ := h
    refine ⟨?_, ?_⟩
    · intro p hp
      simp only [connectStep_true] at hp
      rcases mem_setKey _ _ _ _ hp with h1 | h1
      · rw [h1]
        exact setAdd_ne_nil _ _
      · exact hval p h1
    · simp only [connectStep_true]
      rw [map_fst_setKey]
      by_cases hk : k ∈ st.reg.map Prod.fst
      · simpa [hk] using hnd
      · simp only [if_neg hk]
        rw [List.nodup_append]
        exact ⟨hnd, List.nodup_singleton _, by simp [List.disjoint_singleton, hk]⟩

lemma goodState_disconnectStep (st : SysState) (k : Key) (s : Sink)
    (h : GoodState st) : GoodState (disconnectStep st k s) := by
  obtain ⟨hval, hnd⟩ := h
  cases hlk : lookupKey st.reg k with
  | none =>
    rw [disconnectStep_none st k s hlk]
    exact ⟨hval, hnd⟩
  | some ss =>
    by_cases hnil : setDiscard ss s = []
    · rw [disconnectStep_last st k s ss hlk hnil]
      refine ⟨?_, ?_⟩
      · intro p hp
        exact hval p ((eraseKey_sublist st.reg k).subset hp)
      · exact hnd.sublist ((eraseKey_sublist st.reg k).map Prod.fst)
    · rw [disconnectStep_keep st k s ss hlk hnil]
      refine ⟨?_, ?_⟩
      · intro p hp
        rcases mem_setKey _ _ _ _ hp with h1 | h1
        · rw [h1]
          exact hnil
        · exact hval p h1
      · rw [map_fst_setKey]
        simp [mem_map_fst_of_lookupKey st.reg k ss hlk, hnd]

lemma upInv_connectStep (st : SysState) (k : Key) (s : Sink) (a : Bool)
    (h : UpInv st) : UpInv (connectStep st k s a) := by
  cases a with
  | false => simpa [connectStep_false] using h
  | true =>
    intro k1
    simp only [connectStep_true]
    by_cases hk : k1 = k
    · subst hk
      rw [regSinks_setKey_self, mem_upAdd]
      exact iff_of_true (Or.inr rfl) (setAdd_ne_nil _ _)
    · rw [mem_upAdd, regSinks_setKey_ne _ _ _ _ hk]
      constructor
      · rintro (h1 | h1)
        · exact (h k1).mp h1
        · exact absurd h1 hk
      · intro h1
        exact Or.inl ((h k1).mpr h1)

lemma upInv_disconnectStep (st : SysState) (k : Key) (s : Sink)
    (hg : GoodState st) (h : UpInv st) : UpInv (disconnectStep st k s) := by
  cases hlk : lookupKey st.reg k with
  | none =>
    rw [disconnectStep_none st k s hlk]
    intro k1
    exact h k1
  | some ss =>
    have hss : ss ≠ [] := hg.1 (k, ss) (mem_of_lookupKey _ _ _ hlk)
    by_cases hnil : setDiscard ss s = []
    · rw [disconnectStep_last st k s ss hlk hnil]
      intro k1
      simp only []
      by_cases hk : k1 = k
      · subst hk
        rw [mem_upRemove, regSinks_eraseKey_self _ _ hg.2]
        simp
      · rw [mem_upRemove, regSinks_eraseKey_ne _ _ _ hk]
        constructor
        · rintro ⟨h1, _⟩
          exact (h k1).mp h1
        · intro h1
          exact ⟨(h k1).mpr h1, hk⟩
    · rw [disconnectStep_keep st k s ss hlk hnil]
      intro k1
      simp only []
      by_cases hk : k1 = k
      · subst hk
        rw [regSinks_setKey_self]
        have hl : k1 ∈ st.upstream := by
          refine (h k1).mpr ?_
          rw [regSinks_eq_of_lookupKey _ _ _ hlk]
          exact hss
        exact iff_of_true hl hnil
      · rw [regSinks_setKey_ne _ _ _ _ hk]
        exact h k1

lemma handlerInv_connectStep (st : SysState) (k : Key) (s : Sink) (a : Bool)
    (h : HandlerInv st) : HandlerInv (connectStep st k s a) := by
  cases a with
  | false => simpa [connectStep_false] using h
  | true =>
    intro k1 s1
    simp only [connectStep_true, List.mem_append, List.mem_singleton]
    by_cases hk : k1 = k
    · subst hk
      rw [regSinks_setKey_self, mem_setAdd]
      constructor
      · rintro (h1 | h1)
        · exact Or.inl ((h k1 s1).mp h1)
        · exact Or.inr (congrArg Prod.snd h1)
      · rintro (h1 | h1)
        · exact Or.inl ((h k1 s1).mpr h1)
        · exact Or.inr (by rw [h1])
    · rw [regSinks_setKey_ne _ _ _ _ hk]
      constructor
      · rintro (h1 | h1)
        · exact (h k1 s1).mp h1
        · exact absurd (congrArg Prod.fst h1) hk
      · intro h1
        exact Or.inl ((h k1 s1).mpr h1)

lemma handlerInv_disconnectStep (st : SysState) (k : Key) (s : Sink)
    (hg : GoodState st) (h : HandlerInv st) : HandlerInv (disconnectStep st k s) := by
  cases hlk : lookupKey st.reg k with
  | none =>
    rw [disconnectStep_none st k s hlk]
    intro k1 s1
    rw [mem_handlersFilter]
    constructor
    · rintro ⟨h1, _⟩
      exact (h k1 s1).mp h1
    · intro h1
      refine ⟨(h k1 s1).mpr h1, ?_⟩
      intro he
      have hk1 : k1 = k := congrArg Prod.fst he
      rw [hk1, regSinks_eq_nil_of_lookupKey_none _ _ hlk] at h1
      simp at h1
  | some ss =>
    have hregs : regSinks st.reg k = ss := regSinks_eq_of_lookupKey _ _ _ hlk
    by_cases hnil : setDiscard ss s = []
    · rw [disconnectStep_last st k s ss hlk hnil]
      intro k1 s1
      simp only []
      rw [mem_handlersFilter]
      by_cases hk : k1 = k
      · subst hk
        rw [regSinks_eraseKey_self _ _ hg.2]
        simp only [List.not_mem_nil, iff_false]
        rintro ⟨h1, h2⟩
        have hs1 : s1 ∈ ss := by
          rw [← hregs]
          exact (h k1 s1).mp h1
        exact h2 (by rw [eq_of_mem_of_setDiscard_nil ss s s1 hnil hs1])
      · rw [regSinks_eraseKey_ne _ _ _ hk]
        constructor
        · rintro ⟨h1, _⟩
          exact (h k1 s1).mp h1
        · intro h1
          exact ⟨(h k1 s1).mpr h1, fun he => hk (congrArg Prod.fst he)⟩
    · rw [disconnectStep_keep st k s ss hlk hnil]
      intro k1 s1
      simp only []
      rw [mem_handlersFilter]
      by_cases hk : k1 = k
      · subst hk
        rw [regSinks_setKey_self, mem_setDiscard, ← hregs]
        constructor
        · rintro ⟨h1, h2⟩
          refine ⟨(h k1 s1).mp h1, ?_⟩
          intro he
          exact h2 (by rw [he])
        · rintro ⟨h1, h2⟩
          exact ⟨(h k1 s1).mpr h1, fun he => h2 (congrArg Prod.snd he)⟩
      · rw [regSinks_setKey_ne _ _ _ _ hk]
        constructor
        · rintro ⟨h1, _⟩
          exact (h k1 s1).mp h1
        · intro h1
          exact ⟨(h k1 s1).mpr h1, fun he => hk (congrArg Prod.fst he)⟩

lemma inv_initState : Inv initState := by
  refine ⟨⟨?_, ?_⟩, ?_, ?_⟩
  · intro p hp
    simp [initState] at hp
  · simp [initState]
  · intro k
    simp [initState, regSinks, lookupKey]
  · intro k s
    simp [initState, regSinks, lookupKey]

lemma inv_step (st : SysState) (e : Event) (h : Inv st) : Inv (step st e) := by
  obtain ⟨hg, hu, hh⟩ := h
  cases e with
  | connect k s a =>
    exact ⟨goodState_connectStep st k s a hg, upInv_connectStep st k s a hu,
      handlerInv_connectStep st k s a hh⟩
  | disconnect k s =>
    exact ⟨goodState_disconnectStep st k s hg, upInv_disconnectStep st k s hg hu,
      handlerInv_disconnectStep st k s hg hh⟩

lemma inv_runFrom (evs : List Event) : ∀ st : SysState, Inv st → Inv (runFrom st evs) := by
  induction evs with
  | nil => exact fun st h => h
  | cons e rest ih => exact fun st h => ih (step st e) (inv_step st e h)

lemma inv_run (evs : List Event) : Inv (run evs) :=
  inv_runFrom evs initState inv_initState

/-! ## Counting upstream calls, dispatch membership, unsubscribe no-op -/

lemma disconnectStep_subCalls (st : SysState) (k : Key) (s : Sink) :
    (disconnectStep st k s).subCalls = st.subCalls := by
  cases hlk : lookupKey st.reg k with
  | none => rw [disconnectStep_none st k s hlk]
  | some ss =>
    by_cases hnil : setDiscard ss s = []
    · rw [disconnectStep_last st k s ss hlk hnil]
    · rw [disconnectStep_keep st k s ss hlk hnil]

lemma subCalls_count_runFrom (evs : List Event) (k : Key) :
    ∀ st : SysState,
      (runFrom st evs).subCalls.count k = st.subCalls.count k + acceptedCount evs k := by
  induction evs with
  | nil =>
    intro st
    simp [runFrom, acceptedCount]
  | cons e rest ih =>
    intro st
    cases e with
    | connect k' s a =>
      cases a with
      | false =>
        rw [runFrom, ih, step, connectStep_false, acceptedCount]
        simp
      | true =>
        rw [runFrom, ih, step, connectStep_true, acceptedCount]
        simp only [List.count_append, eq_self_iff_true, true_and]
        by_cases hk : k' = k
        · subst hk
          simp
          omega
        · have hk2 : ¬ k = k' := fun he => hk he.symm
          simp [List.count_cons, hk, hk2]
    | disconnect k' s =>
      rw [runFrom, ih, step, disconnectStep_subCalls, acceptedCount]

lemma cancel_step_count (st : SysState) (e : Event) (k : Key) (hg : GoodState st) :
    (step st e).cancelCalls.count k =
      st.cancelCalls.count k +
        (if regSinks st.reg k ≠ [] ∧ regSinks (step st e).reg k = [] then 1 else 0) := by
  cases e with
  | connect k' s a =>
    cases a with
    | false =>
      have hcond : ¬ (regSinks st.reg k ≠ [] ∧ regSinks st.reg k = []) :=
        fun h1 => h1.1 h1.2
      simp [step, connectStep_false, hcond]
    | true =>
      simp only [step, connectStep_true]
      by_cases hk : k = k'
      · subst hk
        have hne : regSinks (setKey st.reg k (setAdd (regSinks st.reg k) s)) k ≠ [] := by
          rw [regSinks_setKey_self]
          exact setAdd_ne_nil _ _
        simp [hne]
      · have hcond : ¬ (regSinks st.reg k ≠ [] ∧ regSinks st.reg k = []) :=
          fun h1 => h1.1 h1.2
        simp [regSinks_setKey_ne _ _ _ _ hk, hcond]
  | disconnect k' s =>
    cases hlk : lookupKey st.reg k' with
    | none =>
      rw [step, disconnectStep_none st k' s hlk]
      have hcond : ¬ (regSinks st.reg k ≠ [] ∧ regSinks st.reg k = []) :=
        fun h1 => h1.1 h1.2
      simp [hcond]
    | some ss =>
      have hss : ss ≠ [] := hg.1 (k', ss) (mem_of_lookupKey _ _ _ hlk)
      by_cases hnil : setDiscard ss s = []
      · rw [step, disconnectStep_last st k' s ss hlk hnil]
        by_cases hk : k = k'
        · subst hk
          have h1 : regSinks st.reg k ≠ [] := by
            rw [regSinks_eq_of_lookupKey _ _ _ hlk]
            exact hss
          have h2 : regSinks (eraseKey st.reg k) k = [] :=
            regSinks_eraseKey_self _ _ hg.2
          simp [h1, h2, List.count_append]
        · have hk2 : ¬ k' = k := fun he => hk he.symm
          have hcond : ¬ (regSinks st.reg k ≠ [] ∧ regSinks st.reg k = []) :=
            fun h1 => h1.1 h1.2
          simp [regSinks_eraseKey_ne _ _ _ hk, hcond, List.count_append,
            List.count_cons, hk, hk2]
      · rw [step, disconnectStep_keep st k' s ss hlk hnil]
        by_cases hk : k = k'
        · subst hk
          have h2 : regSinks (setKey st.reg k (setDiscard ss s)) k ≠ [] := by
            rw [regSinks_setKey_self]
            exact hnil
          simp [h2]
        · have hcond : ¬ (regSinks st.reg k ≠ [] ∧ regSinks st.reg k = []) :=
            fun h1 => h1.1 h1.2
          simp [regSinks_setKey_ne _ _ _ _ hk, hcond]

lemma cancelCalls_count_runFrom (evs : List Event) (k : Key) :
    ∀ st : SysState, Inv st →
      (runFrom st evs).cancelCalls.count k =
        st.cancelCalls.count k + countOneZero st evs k := by
  induction evs with
  | nil =>
    intro st _
    simp [runFrom, countOneZero]
  | cons e rest ih =>
    intro st hinv
    rw [runFrom, ih (step st e) (inv_step st e hinv), cancel_step_count st e k hinv.1,
      countOneZero, Nat.add_assoc]

lemma mem_dispatchTargets (st : SysState) (k : Key) (s : Sink) (hh : HandlerInv st) :
    s ∈ dispatchTargets st k ↔ s ∈ regSinks st.reg k := by
  rw [← hh k s]
  unfold dispatchTargets
  simp only [List.mem_map, List.mem_filter, beq_iff_eq]
  constructor
  · rintro ⟨⟨k1, s1⟩, ⟨hmem, hkeq⟩, hsnd⟩
    simp only at hkeq hsnd
    rw [← hkeq, ← hsnd]
    exact hmem
  · intro hmem
    exact ⟨(k, s), ⟨hmem, rfl⟩, rfl⟩

lemma disconnectStep_not_mem (st : SysState) (k : Key) (s : Sink) (hinv : Inv st)
    (h : s ∉ regSinks st.reg k) : disconnectStep st k s = st := by
  obtain ⟨hg, hu, hh⟩ := hinv
  have hhand : st.handlers.filter (fun p => p != (k, s)) = st.handlers := by
    refine List.filter_eq_self.mpr (fun p hp => ?_)
    simp only [bne_iff_ne, ne_eq, decide_eq_true_eq]
    intro he
    rw [he] at hp
    exact h ((hh k s).mp hp)
  cases hlk : lookupKey st.reg k with
  | none =>
    rw [disconnectStep_none st k s hlk, hhand]
  | some ss =>
    have hss : ss ≠ [] := hg.1 (k, ss) (mem_of_lookupKey _ _ _ hlk)
    have hsmem : s ∉ ss := by
      rw [← regSinks_eq_of_lookupKey _ _ _ hlk]
      exact h
    have hsd : setDiscard ss s = ss := setDiscard_of_not_mem ss s hsmem
    rw [disconnectStep_keep st k s ss hlk (by rw [hsd]; exact hss), hsd,
      setKey_self_of_lookupKey _ _ _ hlk, hhand]

/-! ## The claims -/

/-- C1: at every reachable state, a symbol has an active upstream market-data
subscription with the broker session iff its sink set in
`active_subscriptions` is non-empty; connection teardown removes the sink, and
when the torn-down sink was the last one for the symbol the teardown itself
cancels the upstream subscription (one `cancelMktData` call), so no upstream
subscription outlives its last consumer. -/
theorem c1_registry_invariant (evs : List Event) (k : Key) (s : Sink) :
    (k ∈ (run evs).upstream ↔ regSinks (run evs).reg k ≠ []) ∧
    s ∉ regSinks (disconnectStep (run evs) k s).reg k ∧
    (regSinks (run evs).reg k = [s] →
      k ∉ (disconnectStep (run evs) k s).upstream ∧
      (disconnectStep (run evs) k s).cancelCalls = (run evs).cancelCalls ++ [k]) := by
  obtain ⟨hg, hu, hh⟩ := inv_run evs
  refine ⟨hu k, ?_, ?_⟩
  · cases hlk : lookupKey (run evs).reg k with
    | none =>
      rw [disconnectStep_none _ _ _ hlk]
      simp only []
      rw [regSinks_eq_nil_of_lookupKey_none _ _ hlk]
      simp
    | some ss =>
      by_cases hnil : setDiscard ss s = []
      · rw [disconnectStep_last _ _ _ _ hlk hnil]
        simp only []
        rw [regSinks_eraseKey_self _ _ hg.2]
        simp
      · rw [disconnectStep_keep _ _ _ _ hlk hnil]
        simp only []
        rw [regSinks_setKey_self, mem_setDiscard]
        rintro ⟨_, h2⟩
        exact h2 rfl
  · intro hone
    have hlk : lookupKey (run evs).reg k = some [s] := by
      cases hlk : lookupKey (run evs).reg k with
      | none =>
        rw [regSinks_eq_nil_of_lookupKey_none _ _ hlk] at hone
        exact absurd hone (by simp)
      | some ss =>
        rw [regSinks_eq_of_lookupKey _ _ _ hlk] at hone
        rw [hone]
    have hnil : setDiscard [s] s = [] := by simp [setDiscard]
    rw [disconnectStep_last _ _ _ _ hlk hnil]
    refine ⟨?_, rfl⟩
    rw [mem_upRemove]
    rintro ⟨_, h2⟩
    exact h2 rfl

/-- Witness for C1: after one accepted connect for "A" by sink 0, the sink
set is [0]; tearing that connection down deactivates "A" upstream and logs
exactly one `cancelMktData` call. -/
theorem c1_registry_invariant_witness :
    regSinks (run [Event.connect "A" 0 true]).reg "A" = [0] ∧
    ("A" ∉ (disconnectStep (run [Event.connect "A" 0 true]) "A" 0).upstream ∧
      (disconnectStep (run [Event.connect "A" 0 true]) "A" 0).cancelCalls =
        (run [Event.connect "A" 0 true]).cancelCalls ++ ["A"]) :=
  ⟨by decide, (c1_registry_invariant [Event.connect "A" 0 true] "A" 0).2.2 (by decide)⟩

/-- C2 as stated fails on the code: `stream_market_data` calls `ib.reqMktData`
unconditionally (line 405), before consulting `active_subscriptions`, so two
accepted subscribes for "A" issue two upstream subscribe requests although
there is only one 0→1 sink-count transition. -/
theorem c2_upstream_counts_counterexample :
    (run [Event.connect "A" 0 true, Event.connect "A" 1 true]).subCalls.count "A" ≠
      countZeroOne initState [Event.connect "A" 0 true, Event.connect "A" 1 true] "A" := by
  decide

/-- C2 amended: for every finite trace of connects/teardowns on a key, the
number of upstream subscribe requests issued to the broker equals the number
of accepted subscribes for that key (one `reqMktData` per accepted subscribe,
not per 0→1 transition; the broker-side ticker is shared, the registry bookkeeping
is not consulted first), while the number of upstream cancel requests does
equal the number of 1→0 sink-count transitions. -/
theorem c2_upstream_counts_amended (evs : List Event) (k : Key) :
    (run evs).subCalls.count k = acceptedCount evs k ∧
    (run evs).cancelCalls.count k = countOneZero initState evs k := by
  constructor
  · have h := subCalls_count_runFrom evs k initState
    simpa [initState, run] using h
  · have h := cancelCalls_count_runFrom evs k initState inv_initState
    simpa [initState, run] using h

/-- C3: a ticker update for key `k` delivers the snapshot message to exactly
the sinks registered for `k` at dispatch time: a pair (sink, message) is
delivered iff the sink is currently in `active_subscriptions[k]` and the
message is the snapshot built by `on_update`; sinks registered under other
keys, or no longer registered, receive nothing. -/
theorem c3_dispatch_exact (evs : List Event) (k : Key) (t : StreamTicker)
    (s : Sink) (m : StreamMessage) :
    (s, m) ∈ dispatch (run evs) k t ↔
      (s ∈ regSinks (run evs).reg k ∧ m = mkStreamMessage k t) := by
  obtain ⟨hg, hu, hh⟩ := inv_run evs
  unfold dispatch
  simp only [List.mem_map]
  constructor
  · rintro ⟨s1, hs1, heq⟩
    have hs : s1 = s := congrArg Prod.fst heq
    have hm : mkStreamMessage k t = m := congrArg Prod.snd heq
    subst hs
    exact ⟨(mem_dispatchTargets _ _ _ hh).mp hs1, hm.symm⟩
  · rintro ⟨hmem, rfl⟩
    exact ⟨s, (mem_dispatchTargets _ _ _ hh).mpr hmem, rfl⟩

/-- C4: when the broker rejects the subscription (failed qualification) the
streaming handler reports "Contract not found" and leaves all shared state
unchanged — no sink registered, no upstream feed activated, no handle stored;
a subsequent teardown of the never-registered sink is a no-op. -/
theorem c4_rejected_subscription (evs : List Event) (k : Key) (s : Sink)
    (h : s ∉ regSinks (run evs).reg k) :
    connectOutcome false = some "Contract not found" ∧
    connectStep (run evs) k s false = run evs ∧
    disconnectStep (run evs) k s = run evs :=
  ⟨rfl, connectStep_false _ _ _, disconnectStep_not_mem _ _ _ (inv_run evs) h⟩

/-- Witness for C4: rejected subscribe for "XYZ" from the empty state. -/
theorem c4_rejected_subscription_witness :
    (0 : Sink) ∉ regSinks (run []).reg "XYZ" ∧
    (connectStep (run []) "XYZ" 0 false = run [] ∧
      disconnectStep (run []) "XYZ" 0 = run []) :=
  ⟨by decide, (c4_rejected_subscription [] "XYZ" 0 (by decide)).2⟩

/-- C5: unsubscribe is idempotent — tearing down a sink that is not currently
registered under the key (same sink twice, or a sink never subscribed) leaves
the registry state unchanged, and the `in`-check plus `set.discard` pattern
raises no error (the operation is total). -/
theorem c5_unsubscribe_idempotent (evs : List Event) (k : Key) (s : Sink)
    (h : s ∉ regSinks (run evs).reg k) :
    disconnectStep (run evs) k s = run evs :=
  disconnectStep_not_mem _ _ _ (inv_run evs) h

/-- Witness for C5: the same sink torn down twice; the second teardown is a
no-op. -/
theorem c5_unsubscribe_idempotent_witness :
    (1 : Sink) ∉ regSinks (run [Event.connect "B" 1 true, Event.disconnect "B" 1]).reg "B" ∧
    disconnectStep (run [Event.connect "B" 1 true, Event.disconnect "B" 1]) "B" 1 =
      run [Event.connect "B" 1 true, Event.disconnect "B" 1] :=
  ⟨by decide,
    c5_unsubscribe_idempotent [Event.connect "B" 1 true, Event.disconnect "B" 1] "B" 1 (by decide)⟩

/-- C6 as stated fails on the code: `on_update` only schedules each send as a
detached task (line 428) and never touches `active_subscriptions`, so a sink
whose delivery fails is NOT removed by the dispatch: with sinks 0 and 1
registered for "A" and sink 0's send failing, sink 0 is still registered
after the dispatch. -/
theorem c6_failed_delivery_counterexample :
    ((0 : Sink), DeliveryResult.failed) ∈
      (dispatchWithFailures
        (run [Event.connect "A" 0 true, Event.connect "A" 1 true]) "A" [0]).2 ∧
    (0 : Sink) ∈ regSinks
      ((dispatchWithFailures
        (run [Event.connect "A" 0 true, Event.connect "A" 1 true]) "A" [0]).1).reg "A" := by
  decide

/-- C6 amended: dispatch never modifies the registry — a sink whose delivery
fails stays registered and is removed only when its own connection's receive
loop observes the disconnect and runs teardown — and a failing sink does not
prevent delivery to the other sinks of the key: every non-failing target
still gets a delivered send, and no other key is affected (the state is
unchanged). -/
theorem c6_failed_delivery_amended (st : SysState) (k : Key) (fails : List Sink) :
    (dispatchWithFailures st k fails).1 = st ∧
    ∀ s, s ∈ dispatchTargets st k → s ∉ fails →
      (s, DeliveryResult.delivered) ∈ (dispatchWithFailures st k fails).2 := by
  refine ⟨rfl, fun s hs hf => ?_⟩
  unfold dispatchWithFailures
  simp only [List.mem_map]
  exact ⟨s, hs, by simp [hf]⟩

/-- Witness for C6 amended: the non-failing sink 1 still receives its send
while sink 0's delivery fails. -/
theorem c6_failed_delivery_amended_witness :
    ((1 : Sink), DeliveryResult.delivered) ∈
      (dispatchWithFailures
        (run [Event.connect "A" 0 true, Event.connect "A" 1 true]) "A" [(0 : Sink)]).2 :=
  (c6_failed_delivery_amended
    (run [Event.connect "A" 0 true, Event.connect "A" 1 true]) "A" [0]).2
    1 (by decide) (by decide)

/-- C7: the historical-bars handler bounds the blocking broker pull at 30
seconds; when the bound is exceeded it fails with HTTP 500 whose detail is
the recorded broker error message when one was captured and
"Request timed out" otherwise — it never hangs or succeeds on timeout. -/
theorem c7_historical_bars_timeout (qualified : List Contract)
    (errorEvents : List (Int × String))
    (h : qualified.filter (fun c => c.conId != 0) ≠ []) :
    historicalBarsTimeoutSeconds = 30 ∧
    get_historical_bars qualified .timedOut errorEvents =
      .error { status := 500,
               detail := (captureErrors errorEvents).getD "Request timed out" } := by
  refine ⟨rfl, ?_⟩
  unfold get_historical_bars
  cases hf : qualified.filter (fun c => c.conId != 0) with
  | nil => exact absurd hf h
  | cons c rest =>
    cases hc : captureErrors errorEvents with
    | none => simp
    | some msg => simp

/-- Witness for C7: one qualified contract, a captured hard error 162. -/
theorem c7_historical_bars_timeout_witness :
    (([{ conId := 1, symbol := "AAPL" }] : List Contract).filter
        (fun c => c.conId != 0) ≠ []) ∧
    get_historical_bars [{ conId := 1, symbol := "AAPL" }] .timedOut
        [((162 : Int), "No market data permissions")] =
      .error { status := 500,
               detail := (captureErrors
                 [((162 : Int), "No market data permissions")]).getD "Request timed out" } :=
  ⟨by decide,
    (c7_historical_bars_timeout [{ conId := 1, symbol := "AAPL" }]
      [((162 : Int), "No market data permissions")] (by decide)).2⟩

/-- C8: `clean_float` returns None exactly on None, NaN, ±infinity and inputs
on which the finiteness checks raise; any finite float is returned unchanged;
consequently every numeric field of the market-data snapshot response is
either null or a finite number — never NaN or infinity. -/
theorem c8_clean_float_snapshot :
    (∀ v : PyVal, clean_float v = none ↔
      (v = .noneV ∨ v = .num .nan ∨ v = .num .inf ∨ v = .num .ninf ∨ v = .raising)) ∧
    (∀ q : ℚ, clean_float (.num (.finite q)) = some (.finite q)) ∧
    (∀ (sym : String) (t : TickerSnapshot),
      IsNullOrFinite (mkMarketDataResponse sym t).bid ∧
      IsNullOrFinite (mkMarketDataResponse sym t).ask ∧
      IsNullOrFinite (mkMarketDataResponse sym t).last ∧
      IsNullOrFinite (mkMarketDataResponse sym t).bid_size ∧
      IsNullOrFinite (mkMarketDataResponse sym t).ask_size ∧
      IsNullOrFinite (mkMarketDataResponse sym t).last_size ∧
      IsNullOrFinite (mkMarketDataResponse sym t).volume ∧
      IsNullOrFinite (mkMarketDataResponse sym t).high ∧
      IsNullOrFinite (mkMarketDataResponse sym t).low ∧
      IsNullOrFinite (mkMarketDataResponse sym t).close ∧
      IsNullOrFinite (mkMarketDataResponse sym t).open_ ∧
      IsNullOrFinite (mkMarketDataResponse sym t).halted) := by
  refine ⟨?_, fun q => rfl, fun sym t =>
    ⟨clean_float_nullOrFinite _, clean_float_nullOrFinite _, clean_float_nullOrFinite _,
      clean_float_nullOrFinite _, clean_float_nullOrFinite _, clean_float_nullOrFinite _,
      clean_float_nullOrFinite _, clean_float_nullOrFinite _, clean_float_nullOrFinite _,
      clean_float_nullOrFinite _, clean_float_nullOrFinite _, clean_float_nullOrFinite _⟩⟩
  intro v
  cases v with
  | noneV => simp [clean_float]
  | raising => simp [clean_float]
  | num f => cases f <;> simp [clean_float]

/-- C9: order placement and contract qualification both drop contracts whose
conId is 0; when no qualified contract remains they fail with HTTP 404 and no
order is submitted to the broker; any contract actually passed to
`ib.placeOrder` has nonzero conId, and every contract returned by the qualify
endpoint has nonzero conId. -/
theorem c9_no_unqualified_contracts (qualified : List Contract) (trade : TradeResult)
    (h : qualified.filter (fun c => c.conId != 0) = []) :
    place_order qualified trade =
      (.error { status := 404, detail := "Contract not found" }, []) ∧
    qualify_contract qualified = .error { status := 404, detail := "Contract not found" } ∧
    (∀ (qs : List Contract) (tr : TradeResult) (c : Contract),
      c ∈ (place_order qs tr).2 → c.conId ≠ 0) ∧
    (∀ (qs : List Contract) (resp : QualifiedContractsResponse),
      qualify_contract qs = .ok resp → ∀ c ∈ resp.contracts, c.conId ≠ 0) := by
  refine ⟨?_, ?_, ?_, ?_⟩
  · unfold place_order
    rw [h]
  · unfold qualify_contract
    rw [h]
  · intro qs tr c hc
    unfold place_order at hc
    cases hf : qs.filter (fun c => c.conId != 0) with
    | nil =>
      rw [hf] at hc
      simp at hc
    | cons c0 rest =>
      rw [hf] at hc
      simp only [List.mem_singleton] at hc
      subst hc
      have hmem : c ∈ qs.filter (fun c => c.conId != 0) := by
        rw [hf]
        exact List.mem_cons_self _ _
      simpa using List.of_mem_filter hmem
  · intro qs resp hok c hc
    unfold qualify_contract at hok
    cases hf : qs.filter (fun c => c.conId != 0) with
    | nil =>
      rw [hf] at hok
      simp at hok
    | cons c0 rest =>
      rw [hf] at hok
      simp only [Except.ok.injEq] at hok
      rw [← hok] at hc
      have hmem : c ∈ qs.filter (fun c => c.conId != 0) := by
        rw [hf]
        exact hc
      simpa using List.of_mem_filter hmem

/-- Witness for C9: qualification returned only an unqualified contract
(conId = 0), so both endpoints 404 and no order is submitted. -/
theorem c9_no_unqualified_contracts_witness :
    (([{ conId := 0, symbol := "ZZZ" }] : List Contract).filter
        (fun c => c.conId != 0) = []) ∧
    place_order [{ conId := 0, symbol := "ZZZ" }]
        { orderId := 1, status := "Submitted", permId := 2 } =
      (.error { status := 404, detail := "Contract not found" }, []) :=
  ⟨by decide,
    (c9_no_unqualified_contracts [{ conId := 0, symbol := "ZZZ" }]
      { orderId := 1, status := "Submitted", permId := 2 } (by decide)).1⟩

/-- C10: when the broker tick pull exceeds its 30-second bound, the tick-data
endpoint succeeds with an empty tick list and count 0, whereas the
historical-bars endpoint fails with HTTP 500 on its timeout. -/
theorem c10_tick_timeout_empty (qualified qualified2 : List Contract)
    (errorEvents : List (Int × String))
    (h : qualified ≠ [])
    (h2 : qualified2.filter (fun c => c.conId != 0) ≠ []) :
    get_tick_data qualified .timedOut = .ok { ticks := [], count := 0 } ∧
    tickDataTimeoutSeconds = 30 ∧
    ∃ e : HTTPError,
      get_historical_bars qualified2 .timedOut errorEvents = .error e ∧ e.status = 500 := by
  refine ⟨?_, rfl, ?_⟩
  · obtain ⟨c, rest, rfl⟩ := List.exists_cons_of_ne_nil h
    rfl
  · unfold get_historical_bars
    cases hf : qualified2.filter (fun c => c.conId != 0) with
    | nil => exact absurd hf h2
    | cons c rest =>
      cases hc : captureErrors errorEvents with
      | none => exact ⟨_, rfl, rfl⟩
      | some msg => exact ⟨_, rfl, rfl⟩

/-- Witness for C10: both endpoints with one valid contract, timed-out
pulls. -/
theorem c10_tick_timeout_empty_witness :
    (([{ conId := 1, symbol := "SPY" }] : List Contract) ≠ [] ∧
      ([{ conId := 2, symbol := "QQQ" }] : List Contract).filter
        (fun c => c.conId != 0) ≠ []) ∧
    get_tick_data [{ conId := 1, symbol := "SPY" }] .timedOut =
      .ok { ticks := [], count := 0 } :=
  ⟨⟨by decide, by decide⟩,
    (c10_tick_timeout_empty [{ conId := 1, symbol := "SPY" }]
      [{ conId := 2, symbol := "QQQ" }] [] (by decide) (by decide)).1⟩

end BullFund
